import Mathlib

/-!
Shallow embedding of the chess rules engine of `ChessEngine.py`:
board representation, the `Move` model, per-piece pseudo-legal move
generation, attack detection (`square_under_attack`, `in_check`),
legality filtering with terminal-flag maintenance (`get_valid_moves`),
and move application/undo (`make_move`, `undo_move`).

Python strings of length two (piece codes such as "wp", the sentinel "--")
are modelled as pairs of characters; the board, a numpy 8×8 grid of such
codes, as a list of rows.  All board coordinates are integers, as in
Python; reads and writes carry the in-range guard `0 ≤ i < 8`, with reads
outside the board returning the empty sentinel and writes outside being
dropped (the Python program only ever indexes in range, except for the
unguarded pawn rows analysed separately via the access-list functions
below).  Mutating methods are modelled as state-passing functions.
-/

/-- A board cell: the two characters of a piece code such as "wp" or the
empty sentinel "--". -/
abbrev Sq := Char × Char

def dash : Sq := ('-', '-')

def wp : Sq := ('w', 'p')

def wR : Sq := ('w', 'R')

def wN : Sq := ('w', 'N')

def wB : Sq := ('w', 'B')

def wQ : Sq := ('w', 'Q')

def wK : Sq := ('w', 'K')

def bp : Sq := ('b', 'p')

def bR : Sq := ('b', 'R')

def bN : Sq := ('b', 'N')

def bB : Sq := ('b', 'B')

def bQ : Sq := ('b', 'Q')

def bK : Sq := ('b', 'K')

/-- The 8×8 board grid: a list of rows of piece codes. -/
abbrev Board := List (List Sq)

/-- The in-bounds test `0 <= r < 8 and 0 <= c < 8` of the source. -/
def InR (r c : Int) : Prop := 0 ≤ r ∧ r < 8 ∧ 0 ≤ c ∧ c < 8

instance (r c : Int) : Decidable (InR r c) := by unfold InR; infer_instance

/-- In-range board read `self.board[r][c]`; out-of-range reads (never
performed by the Python code on in-range squares) return the sentinel. -/
def bget (b : Board) (r c : Int) : Sq :=
  if InR r c then (b.getD r.toNat []).getD c.toNat dash else dash

/-- In-range board write `self.board[r][c] = p`; out-of-range writes are
dropped. -/
def bset (b : Board) (r c : Int) (p : Sq) : Board :=
  if InR r c then
    b.set r.toNat ((b.getD r.toNat []).set c.toNat p)
  else b

/-- The `Move` class: start and end squares plus the piece codes captured
from the board at construction time (`Move.__init__`). -/
structure Move where
  start_row : Int
  start_col : Int
  end_row : Int
  end_col : Int
  piece_moved : Sq
  piece_captured : Sq
  deriving DecidableEq, Repr

/-- `self.move_id = (start_row, start_col, end_row, end_col)`. -/
def Move.moveId (m : Move) : Int × Int × Int × Int :=
  (m.start_row, m.start_col, m.end_row, m.end_col)

/-- The derived field `self.is_pawn_promotion` of `Move.__init__`. -/
def Move.isPawnPromotion (m : Move) : Bool :=
  (m.piece_moved == wp && m.end_row == 0) || (m.piece_moved == bp && m.end_row == 7)

/-- `Move.__init__`: the constructor reads `board[start]` and `board[end]`
at construction time. -/
def mkMove (s e : Int × Int) (b : Board) : Move :=
  { start_row := s.1, start_col := s.2, end_row := e.1, end_col := e.2,
    piece_moved := bget b s.1 s.2, piece_captured := bget b e.1 e.2 }

/-- `Move.__eq__` via `isinstance`: the right operand is either a `Move`
(`Sum.inl`) or any non-`Move` value (`Sum.inr`). -/
def moveEqPy (m : Move) (other : Sum Move Unit) : Bool :=
  match other with
  | Sum.inl o => m.moveId == o.moveId
  | Sum.inr _ => false

/-- The `GameState` attributes (the `move_functions` dispatch table is
modelled by the `pieceMoves` match below).  The move log is a stack with
its top at the head (Python appends and pops at the same end). -/
structure GameState where
  board : Board
  white_to_move : Bool
  move_log : List Move
  white_king_location : Int × Int
  black_king_location : Int × Int
  check_mate : Bool
  stale_mate : Bool
  deriving DecidableEq, Repr

/-- `self.white_to_move = not self.white_to_move`. -/
def flipTurn (s : GameState) : GameState :=
  { s with white_to_move := !s.white_to_move }

/-- `GameState.make_move`. -/
def makeMove (s : GameState) (m : Move) : GameState :=
  let b1 := bset s.board m.start_row m.start_col dash
  let b2 := bset b1 m.end_row m.end_col m.piece_moved
  let b3 := if m.isPawnPromotion then bset b2 m.end_row m.end_col (m.piece_moved.1, 'Q') else b2
  { s with
    board := b3
    move_log := m :: s.move_log
    white_to_move := !s.white_to_move
    white_king_location :=
      if m.piece_moved = wK then (m.end_row, m.end_col) else s.white_king_location
    black_king_location :=
      if m.piece_moved = bK then (m.end_row, m.end_col) else s.black_king_location }

/-- `GameState.undo_move`. -/
def undoMove (s : GameState) : GameState :=
  match s.move_log with
  | [] => s
  | m :: rest =>
    let b1 := bset s.board m.start_row m.start_col m.piece_moved
    let b2 := bset b1 m.end_row m.end_col m.piece_captured
    { s with
      board := b2
      move_log := rest
      white_to_move := !s.white_to_move
      white_king_location :=
        if m.piece_moved = wK then (m.start_row, m.start_col) else s.white_king_location
      black_king_location :=
        if m.piece_moved = bK then (m.start_row, m.start_col) else s.black_king_location }

/-- `ally_color`: `"w" if self.white_to_move else "b"`. -/
def allyOf (w : Bool) : Char := if w then 'w' else 'b'

/-- `enemy_color`: `"b" if self.white_to_move else "w"`. -/
def enemyOf (w : Bool) : Char := if w then 'b' else 'w'

/-- `GameState.get_pawn_moves`: appended moves, in source order.  The row
indices `row∓1`, `row∓2` are formed without a row bounds check, exactly as
in the source. -/
def getPawnMoves (b : Board) (w : Bool) (row col : Int) : List Move :=
  if w then
    (if bget b (row - 1) col = dash then
      mkMove (row, col) (row - 1, col) b ::
        (if row = 6 ∧ bget b (row - 2) col = dash then
          [mkMove (row, col) (row - 2, col) b] else [])
    else []) ++
    (if col - 1 ≥ 0 then
      (if (bget b (row - 1) (col - 1)).1 = 'b' then
        [mkMove (row, col) (row - 1, col - 1) b] else [])
    else []) ++
    (if col + 1 ≤ 7 then
      (if (bget b (row - 1) (col + 1)).1 = 'b' then
        [mkMove (row, col) (row - 1, col + 1) b] else [])
    else [])
  else
    (if bget b (row + 1) col = dash then
      mkMove (row, col) (row + 1, col) b ::
        (if row = 1 ∧ bget b (row + 2) col = dash then
          [mkMove (row, col) (row + 2, col) b] else [])
    else []) ++
    (if col - 1 ≥ 0 then
      (if (bget b (row + 1) (col - 1)).1 = 'w' then
        [mkMove (row, col) (row + 1, col - 1) b] else [])
    else []) ++
    (if col + 1 ≤ 7 then
      (if (bget b (row + 1) (col + 1)).1 = 'w' then
        [mkMove (row, col) (row + 1, col + 1) b] else [])
    else [])

/-- The inner `for i in range(1, 8)` loop shared by the rook and bishop
generators: walk multiples `i, i+1, ...` of direction `d`, stopping at the
board edge, at an own piece (exclusive), or at the first enemy piece
(inclusive).  Called with `i = 1` and fuel 7. -/
def slideFrom (b : Board) (enemy : Char) (row col : Int) (d : Int × Int) :
    Int → Nat → List Move
  | _, 0 => []
  | i, fuel + 1 =>
    let er := row + d.1 * i
    let ec := col + d.2 * i
    if InR er ec then
      let ep := bget b er ec
      if ep = dash then
        mkMove (row, col) (er, ec) b :: slideFrom b enemy row col d (i + 1) fuel
      else if ep.1 = enemy then [mkMove (row, col) (er, ec) b]
      else []
    else []

/-- `GameState.get_rook_moves`. -/
def getRookMoves (b : Board) (w : Bool) (row col : Int) : List Move :=
  [((-1 : Int), (0 : Int)), (0, -1), (1, 0), (0, 1)].flatMap fun d =>
    slideFrom b (enemyOf w) row col d 1 7

/-- `GameState.get_bishop_moves`. -/
def getBishopMoves (b : Board) (w : Bool) (row col : Int) : List Move :=
  [((-1 : Int), (-1 : Int)), (-1, 1), (1, -1), (1, 1)].flatMap fun d =>
    slideFrom b (enemyOf w) row col d 1 7

/-- `GameState.get_queen_moves`: rook moves then bishop moves. -/
def getQueenMoves (b : Board) (w : Bool) (row col : Int) : List Move :=
  getRookMoves b w row col ++ getBishopMoves b w row col

/-- The `knight_moves` offset tuple. -/
def knightOffsets : List (Int × Int) :=
  [(-2, -1), (-2, 1), (-1, -2), (-1, 2), (1, -2), (1, 2), (2, -1), (2, 1)]

/-- `GameState.get_knight_moves`. -/
def getKnightMoves (b : Board) (w : Bool) (row col : Int) : List Move :=
  knightOffsets.flatMap fun m =>
    let er := row + m.1
    let ec := col + m.2
    if InR er ec then
      if (bget b er ec).1 ≠ allyOf w then [mkMove (row, col) (er, ec) b] else []
    else []

/-- The `king_moves` offset tuple. -/
def kingOffsets : List (Int × Int) :=
  [(-1, -1), (-1, 0), (-1, 1), (0, -1), (0, 1), (1, -1), (1, 0), (1, 1)]

/-- `GameState.get_king_moves`, with the source's two consecutive
identical in-bounds/occupancy check-and-append blocks per direction. -/
def getKingMoves (b : Board) (w : Bool) (row col : Int) : List Move :=
  kingOffsets.flatMap fun m =>
    let er := row + m.1
    let ec := col + m.2
    (if InR er ec then
      if (bget b er ec).1 ≠ allyOf w then [mkMove (row, col) (er, ec) b] else []
    else []) ++
    (if InR er ec then
      if (bget b er ec).1 ≠ allyOf w then [mkMove (row, col) (er, ec) b] else []
    else [])

/-- The variant of the king generator the specification prescribes: the
in-bounds/occupancy check and the append performed exactly once per
direction. -/
def getKingMovesOnce (b : Board) (w : Bool) (row col : Int) : List Move :=
  kingOffsets.flatMap fun m =>
    let er := row + m.1
    let ec := col + m.2
    if InR er ec then
      if (bget b er ec).1 ≠ allyOf w then [mkMove (row, col) (er, ec) b] else []
    else []

/-- The `move_functions` dispatch table, keyed by the second character of
the piece code. -/
def pieceMoves (piece : Char) (b : Board) (w : Bool) (row col : Int) : List Move :=
  match piece with
  | 'p' => getPawnMoves b w row col
  | 'R' => getRookMoves b w row col
  | 'N' => getKnightMoves b w row col
  | 'B' => getBishopMoves b w row col
  | 'Q' => getQueenMoves b w row col
  | 'K' => getKingMoves b w row col
  | _ => []

/-- `GameState.get_all_possible_moves`: scan every square; on a square of
the side to move, dispatch on the piece type.  The scan reads the raw row
and cell lists exactly as the Python `for` loops do. -/
def getAllPossibleMoves (s : GameState) : List Move :=
  (List.range s.board.length).flatMap fun row =>
    (List.range ((s.board.getD row []).length)).flatMap fun col =>
      let sq := (s.board.getD row []).getD col dash
      if (sq.1 = 'w' ∧ s.white_to_move) ∨ (sq.1 = 'b' ∧ ¬s.white_to_move) then
        pieceMoves sq.2 s.board s.white_to_move (row : Int) (col : Int)
      else []

/-- `GameState.square_under_attack`: flip the side-to-move flag, generate
the opposing side's pseudo-legal moves, flip it back, and test whether any
destination equals the square.  Returns the posterior state and the
result. -/
def squareUnderAttack (s : GameState) (row col : Int) : GameState × Bool :=
  let s1 := flipTurn s
  let oppMoves := getAllPossibleMoves s1
  let s2 := flipTurn s1
  (s2, oppMoves.any fun m => m.end_row == row && m.end_col == col)

/-- `GameState.in_check`. -/
def inCheck (s : GameState) : GameState × Bool :=
  if s.white_to_move then
    squareUnderAttack s s.white_king_location.1 s.white_king_location.2
  else
    squareUnderAttack s s.black_king_location.1 s.black_king_location.2

/-- Python `list.remove`: delete the first element comparing equal
(`Move.__eq__`, i.e. equal `move_id`) to `x`. -/
def removeFirstEq : List Move → Move → List Move
  | [], _ => []
  | a :: rest, x => if a.moveId = x.moveId then rest else a :: removeFirstEq rest x

/-- Placeholder move for the total model of `moves[i]`; every actual read
in `get_valid_moves` has `i` in range. -/
def noMove : Move :=
  { start_row := 0, start_col := 0, end_row := 0, end_col := 0,
    piece_moved := dash, piece_captured := dash }

/-- The `for i in range(len(moves) - 1, -1, -1)` filter loop of
`get_valid_moves`: at index `i`, tentatively apply `moves[i]`, flip the
flag to the mover's perspective, drop the move (via `list.remove`) if the
mover is left in check, flip back, and undo. -/
def gvmLoop : GameState → List Move → Nat → GameState × List Move
  | s, moves, 0 => (s, moves)
  | s, moves, i + 1 =>
    let m := moves.getD i noMove
    let s1 := flipTurn (makeMove s m)
    let p := inCheck s1
    let moves1 := if p.2 then removeFirstEq moves m else moves
    let s2 := undoMove (flipTurn p.1)
    gvmLoop s2 moves1 i

/-- `GameState.get_valid_moves`: filter the pseudo-legal list, then derive
the terminal flags from the survivor count and the check status. -/
def getValidMoves (s : GameState) : GameState × List Move :=
  let moves := getAllPossibleMoves s
  let p := gvmLoop s moves moves.length
  if p.2.length = 0 then
    let q := inCheck p.1
    if q.2 then ({ q.1 with check_mate := true }, p.2)
    else ({ q.1 with stale_mate := true }, p.2)
  else ({ p.1 with check_mate := false, stale_mate := false }, p.2)

/-- The initial board of `GameState.__init__`. -/
def initBoard : Board :=
  [[bR, bN, bB, bQ, bK, bB, bN, bR],
   [bp, bp, bp, bp, bp, bp, bp, bp],
   [dash, dash, dash, dash, dash, dash, dash, dash],
   [dash, dash, dash, dash, dash, dash, dash, dash],
   [dash, dash, dash, dash, dash, dash, dash, dash],
   [dash, dash, dash, dash, dash, dash, dash, dash],
   [wp, wp, wp, wp, wp, wp, wp, wp],
   [wR, wN, wB, wQ, wK, wB, wN, wR]]

/-- `GameState.__init__`. -/
def initGameState : GameState :=
  { board := initBoard
    white_to_move := true
    move_log := []
    white_king_location := (7, 4)
    black_king_location := (0, 4)
    check_mate := false
    stale_mate := false }

/-- States reachable by legal play: the fresh game, and any state obtained
by applying a move from the legal-move list (as the driver does, on the
state `get_valid_moves` left behind). -/
inductive Reachable : GameState → Prop
  | init : Reachable initGameState
  | step {s : GameState} {m : Move} :
      Reachable s → m ∈ (getValidMoves s).2 →
      Reachable (makeMove (getValidMoves s).1 m)

/-! ### Board algebra -/

/-- A well-formed board: eight rows of eight cells (the data model's
"board always has exactly 64 squares"). -/
def WF8 (b : Board) : Prop := b.length = 8 ∧ ∀ row ∈ b, row.length = 8

instance (b : Board) : Decidable (WF8 b) := by unfold WF8; infer_instance

lemma inR_elim {r c : Int} (h : InR r c) : 0 ≤ r ∧ r < 8 ∧ 0 ≤ c ∧ c < 8 := h

lemma list_set_getD {α : Type} (l : List α) (i : Nat) (d : α) :
    l.set i (l.getD i d) = l := by
  induction l generalizing i with
  | nil => rfl
  | cons a l ih =>
    cases i with
    | zero => simp [List.getD]
    | succ i => simpa using ih i

lemma list_getD_set_self {α : Type} (l : List α) (i : Nat) (x d : α) (h : i < l.length) :
    (l.set i x).getD i d = x := by
  simp [List.getD, List.getElem?_set_self, h]

lemma list_getD_set_ne {α : Type} (l : List α) {i j : Nat} (x d : α) (h : i ≠ j) :
    (l.set i x).getD j d = l.getD j d := by
  simp [List.getD, List.getElem?_set_ne h]

lemma bset_self (b : Board) (r c : Int) : bset b r c (bget b r c) = b := by
  by_cases h : InR r c
  · unfold bset bget
    rw [if_pos h, if_pos h, list_set_getD, list_set_getD]
  · simp [bset, h]

lemma bset_out (b : Board) {r c : Int} (h : ¬ InR r c) (p : Sq) : bset b r c p = b := by
  simp [bset, h]

lemma bget_out (b : Board) {r c : Int} (h : ¬ InR r c) : bget b r c = dash := by
  simp [bget, h]

lemma bset_bset_same (b : Board) (r c : Int) (p q : Sq) :
    bset (bset b r c p) r c q = bset b r c q := by
  by_cases h : InR r c
  · simp only [bset, if_pos h]
    by_cases hr : r.toNat < b.length
    · rw [list_getD_set_self _ _ _ _ hr, List.set_set, List.set_set]
    · have hle : b.length ≤ r.toNat := Nat.le_of_not_lt hr
      simp [List.set_eq_of_length_le hle]
  · simp [bset, h]

lemma toNat_ne_of_ne {a b : Int} (ha : 0 ≤ a) (hb : 0 ≤ b) (h : a ≠ b) :
    a.toNat ≠ b.toNat := by omega

lemma bset_comm (b : Board) {r c r' c' : Int} (p q : Sq) (h : r ≠ r' ∨ c ≠ c') :
    bset (bset b r c p) r' c' q = bset (bset b r' c' q) r c p := by
  by_cases h1 : InR r c
  · by_cases h2 : InR r' c'
    · have e1 := inR_elim h1
      have e2 := inR_elim h2
      simp only [bset, if_pos h1, if_pos h2]
      by_cases hrr : r = r'
      · subst hrr
        have hc : c ≠ c' := by tauto
        have hcn : c.toNat ≠ c'.toNat := toNat_ne_of_ne e1.2.2.1 e2.2.2.1 hc
        by_cases hr : r.toNat < b.length
        · rw [list_getD_set_self _ _ _ _ hr, list_getD_set_self _ _ _ _ hr,
            List.set_set, List.set_set, List.set_comm _ _ _ hcn]
        · have hle : b.length ≤ r.toNat := Nat.le_of_not_lt hr
          simp [List.set_eq_of_length_le hle]
      · have hn : r.toNat ≠ r'.toNat := toNat_ne_of_ne e1.1 e2.1 hrr
        rw [list_getD_set_ne _ _ _ hn, list_getD_set_ne _ _ _ (Ne.symm hn),
          List.set_comm _ _ _ hn]
    · rw [bset_out _ h2, bset_out _ h2]
  · rw [bset_out _ h1, bset_out _ h1]

lemma bget_bset (b : Board) (r c r' c' : Int) (p : Sq) (hb : WF8 b) (h' : InR r' c') :
    bget (bset b r c p) r' c' = if r = r' ∧ c = c' then p else bget b r' c' := by
  by_cases h : InR r c
  · have e1 := inR_elim h
    have e2 := inR_elim h'
    simp only [bset, bget, if_pos h, if_pos h']
    have hrlt : r.toNat < b.length := by rw [hb.1]; omega
    by_cases hrr : r = r'
    · subst hrr
      rw [list_getD_set_self _ _ _ _ hrlt]
      by_cases hcc : c = c'
      · subst hcc
        have hclt : c.toNat < (b.getD r.toNat []).length := by
          have hmem : b.getD r.toNat [] ∈ b := by
            rw [List.getD_eq_getElem _ _ hrlt]
            exact List.getElem_mem hrlt
          rw [hb.2 _ hmem]; omega
        rw [list_getD_set_self _ _ _ _ hclt]
        simp
      · have hcn : c.toNat ≠ c'.toNat := toNat_ne_of_ne e1.2.2.1 e2.2.2.1 hcc
        rw [list_getD_set_ne _ _ _ hcn]
        simp [hcc]
    · have hn : r.toNat ≠ r'.toNat := toNat_ne_of_ne e1.1 e2.1 hrr
      rw [list_getD_set_ne _ _ _ hn]
      simp [hrr]
  · rw [bset_out _ h]
    have hne : ¬ (r = r' ∧ c = c') := by
      rintro ⟨rfl, rfl⟩; exact h h'
    simp [hne]

lemma wf8_bset (b : Board) (r c : Int) (p : Sq) (hb : WF8 b) : WF8 (bset b r c p) := by
  by_cases h : InR r c
  · simp only [bset, if_pos h]
    refine ⟨by simpa using hb.1, ?_⟩
    intro row hrow
    rcases List.mem_or_eq_of_mem_set hrow with hmem | rfl
    · exact hb.2 _ hmem
    · rw [List.length_set]
      have e1 := inR_elim h
      have hrlt : r.toNat < b.length := by rw [hb.1]; omega
      have hmem : b.getD r.toNat [] ∈ b := by
        rw [List.getD_eq_getElem _ _ hrlt]
        exact List.getElem_mem hrlt
      exact hb.2 _ hmem
  · simpa [bset, h] using hb

/-! ### Make/undo round trip -/

lemma flip_flip (s : GameState) : flipTurn (flipTurn s) = s := by
  simp [flipTurn]

lemma board_roundtrip (b : Board) (sr sc er ec : Int) (pm pc y : Sq)
    (hpm : pm = bget b sr sc) (hpc : pc = bget b er ec) :
    bset (bset (bset (bset b sr sc dash) er ec y) sr sc pm) er ec pc = b := by
  by_cases hse : sr = er ∧ sc = ec
  · obtain ⟨hr, hc⟩ := hse
    subst hr; subst hc
    rw [bset_bset_same, bset_bset_same, bset_bset_same, hpc, bset_self]
  · have hne : er ≠ sr ∨ ec ≠ sc := by tauto
    rw [bset_comm _ _ _ hne, bset_bset_same, bset_bset_same, hpm, bset_self, hpc, bset_self]

/-- `make_move` then `undo_move` restores the state, provided the move's
piece fields were captured from the current board and the king-location
caches agree with the move's start square whenever the moved piece is the
corresponding king. -/
lemma make_undo (s : GameState) (m : Move)
    (hpm : m.piece_moved = bget s.board m.start_row m.start_col)
    (hpc : m.piece_captured = bget s.board m.end_row m.end_col)
    (hwk : m.piece_moved = wK → s.white_king_location = (m.start_row, m.start_col))
    (hbk : m.piece_moved = bK → s.black_king_location = (m.start_row, m.start_col)) :
    undoMove (makeMove s m) = s := by
  obtain ⟨b, w, log, wl, bl, cm, sm⟩ := s
  simp only [makeMove, undoMove, GameState.mk.injEq] at *
  refine ⟨?_, by simp, trivial, ?_, ?_, trivial, trivial⟩
  · by_cases hp : m.isPawnPromotion = true
    · rw [if_pos hp, bset_bset_same]
      exact board_roundtrip _ _ _ _ _ _ _ _ hpm hpc
    · rw [if_neg hp]
      exact board_roundtrip _ _ _ _ _ _ _ _ hpm hpc
  · by_cases hk : m.piece_moved = wK
    · simp [hk, (hwk hk).symm]
    · simp [hk]
  · by_cases hk : m.piece_moved = bK
    · simp [hk, (hbk hk).symm]
    · simp [hk]

/-! ### Claims C2, C7: apply/undo behaviour -/

def rowDash : List Sq := [dash, dash, dash, dash, dash, dash, dash, dash]

/-- A well-formed board whose white-king cache will be set out of sync:
the white king stands on (0,0). -/
def cacheMismatchBoard : Board :=
  [[wK, dash, dash, dash, dash, dash, dash, dash],
   rowDash, rowDash, rowDash, rowDash, rowDash, rowDash, rowDash]

/-- A game state whose king-location cache (5,5) does not match the board
position (0,0) of the white king. -/
def cacheMismatchState : GameState :=
  { board := cacheMismatchBoard, white_to_move := true, move_log := [],
    white_king_location := (5, 5), black_king_location := (0, 4),
    check_mate := false, stale_mate := false }

/-- Claim C2, counterexample: on a state whose white-king cache entry does
not equal the white king's board square, applying the in-range move
(0,0)→(0,1) (constructed from that state's board) and undoing it yields a
white-king cache entry of (0,0), not the pre-apply value (5,5).  The claim
as stated, quantified over every game state, is therefore false. -/
theorem C2_counterexample :
    (undoMove (makeMove cacheMismatchState
        (mkMove (0, 0) (0, 1) cacheMismatchState.board))).white_king_location ≠
      cacheMismatchState.white_king_location := by decide

/-- Claim C2 (amended): for every game state whose king-location cache
entries agree with the move's start square whenever the piece standing
there is the corresponding king (true in particular of every state whose
caches match the board's kings, hence of every state reachable by legal
play), `make_move` of a `Move` constructed from that state's board with
in-range start and end squares followed immediately by `undo_move`
restores the entire state: board (including the pawn-promotion path),
side-to-move flag, both king-location cache entries, and the move
history. -/
theorem C2_make_then_undo (s : GameState) (a e : Int × Int)
    (_ha : InR a.1 a.2) (_he : InR e.1 e.2)
    (hwk : bget s.board a.1 a.2 = wK → s.white_king_location = a)
    (hbk : bget s.board a.1 a.2 = bK → s.black_king_location = a) :
    undoMove (makeMove s (mkMove a e s.board)) = s := by
  apply make_undo
  · rfl
  · rfl
  · intro h; exact hwk h
  · intro h; exact hbk h

/-- Witness for C2: the concrete white king-pawn double advance from the
initial position round-trips to the initial state. -/
theorem C2_make_then_undo_witness :
    undoMove (makeMove initGameState (mkMove (6, 4) (4, 4) initGameState.board)) =
      initGameState :=
  C2_make_then_undo initGameState (6, 4) (4, 4) (by decide) (by decide) (by decide) (by decide)

/-- Claim C7: calling `undo_move` on a state with an empty move history is
a no-op — the state is returned unchanged. -/
theorem C7_undo_empty (s : GameState) (h : s.move_log = []) : undoMove s = s := by
  unfold undoMove
  rw [h]

/-- Witness for C7 at the initial state. -/
theorem C7_undo_empty_witness : undoMove initGameState = initGameState :=
  C7_undo_empty initGameState rfl

/-! ### Claim C8: Move equality -/

/-- Claim C8: `Move.__eq__` is coordinate-only — two moves compare equal
iff their (start_row, start_col, end_row, end_col) tuples agree, whatever
piece fields they carry; comparison against a non-Move value is false. -/
theorem C8_move_equality :
    (∀ m o : Move, moveEqPy m (Sum.inl o) = true ↔
        m.start_row = o.start_row ∧ m.start_col = o.start_col ∧
          m.end_row = o.end_row ∧ m.end_col = o.end_col) ∧
    ∀ (m : Move) (u : Unit), moveEqPy m (Sum.inr u) = false := by
  constructor
  · intro m o
    simp [moveEqPy, Move.moveId, Prod.ext_iff]
  · intro m u
    rfl

/-! ### Claim C5: attack detection -/

/-- Claim C5: `square_under_attack(row, col)` is true iff some
pseudo-legal move of the side opposing the current side-to-move (generated
under the flipped flag) has destination (row, col), and `in_check` equals
`square_under_attack` applied to the king-location cache entry of the side
to move. -/
theorem C5_square_under_attack_spec :
    (∀ (s : GameState) (row col : Int),
        (squareUnderAttack s row col).2 = true ↔
          ∃ m ∈ getAllPossibleMoves (flipTurn s), m.end_row = row ∧ m.end_col = col) ∧
    ∀ s : GameState,
      (inCheck s).2 =
        (squareUnderAttack s
            (if s.white_to_move then s.white_king_location.1 else s.black_king_location.1)
            (if s.white_to_move then s.white_king_location.2 else s.black_king_location.2)).2 := by
  constructor
  · intro s row col
    simp [squareUnderAttack, List.any_eq_true]
  · intro s
    cases hw : s.white_to_move <;> simp [inCheck, hw]

/-! ### Claim C3: duplicated king-move block -/

/-- A board holding only a white king on (4,4). -/
def kingOnlyBoard : Board :=
  [rowDash, rowDash, rowDash, rowDash,
   [dash, dash, dash, dash, wK, dash, dash, dash],
   rowDash, rowDash, rowDash]

/-- Claim C3, counterexample: the duplicated check-and-append block is not
equivalent to performing it once — on a lone white king at (4,4) the
source generator produces each of the eight moves twice (16 entries),
while the check-once variant produces 8, so the lists differ. -/
theorem C3_counterexample :
    getKingMoves kingOnlyBoard true 4 4 ≠ getKingMovesOnce kingOnlyBoard true 4 4 := by decide

/-- Claim C3 (amended): the king generator with the source's duplicated
in-bounds/occupancy block produces each move of the check-once variant
twice in immediate succession (the same move set, but doubled
multiplicity), for every board, square and side to move. -/
theorem C3_king_moves_doubled (b : Board) (w : Bool) (row col : Int) :
    getKingMoves b w row col = (getKingMovesOnce b w row col).flatMap fun m => [m, m] := by
  unfold getKingMoves getKingMovesOnce
  rw [List.flatMap_assoc]
  refine congrArg _ (funext fun mo => ?_)
  dsimp only
  split_ifs <;> rfl

/-! ### Claim C9: the initial position -/

set_option maxRecDepth 100000 in
/-- Claim C9: a fresh game has exactly 20 legal moves and both terminal
flags false after `get_valid_moves`. -/
theorem C9_new_game_twenty_moves :
    (getValidMoves initGameState).2.length = 20 ∧
      (getValidMoves initGameState).1.check_mate = false ∧
      (getValidMoves initGameState).1.stale_mate = false := by decide

/-! ### Claim C6: board indices formed by the generators -/

/-- The (row, col) index pairs the pawn generator forms for board reads,
with the source's guard structure: `board[row∓1][col]` unconditionally,
`board[row∓2][col]` only when the square ahead was empty and the pawn is
on its double-push rank (the `and` short-circuits), and the two diagonal
reads under their column guards.  No row guard is present. -/
def pawnAccesses (b : Board) (w : Bool) (row col : Int) : List (Int × Int) :=
  if w then
    [(row - 1, col)] ++
    (if bget b (row - 1) col = dash ∧ row = 6 then [(row - 2, col)] else []) ++
    (if col - 1 ≥ 0 then [(row - 1, col - 1)] else []) ++
    (if col + 1 ≤ 7 then [(row - 1, col + 1)] else [])
  else
    [(row + 1, col)] ++
    (if bget b (row + 1) col = dash ∧ row = 1 then [(row + 2, col)] else []) ++
    (if col - 1 ≥ 0 then [(row + 1, col - 1)] else []) ++
    (if col + 1 ≤ 7 then [(row + 1, col + 1)] else [])

/-- Index pairs a sliding generator reads: each visited square is read
only after its in-bounds guard, and the walk continues only through empty
squares. -/
def slideAccesses (b : Board) (row col : Int) (d : Int × Int) :
    Int → Nat → List (Int × Int)
  | _, 0 => []
  | i, fuel + 1 =>
    let er := row + d.1 * i
    let ec := col + d.2 * i
    if InR er ec then
      (er, ec) ::
        (if bget b er ec = dash then slideAccesses b row col d (i + 1) fuel else [])
    else []

def rookAccesses (b : Board) (row col : Int) : List (Int × Int) :=
  [((-1 : Int), (0 : Int)), (0, -1), (1, 0), (0, 1)].flatMap fun d =>
    slideAccesses b row col d 1 7

def bishopAccesses (b : Board) (row col : Int) : List (Int × Int) :=
  [((-1 : Int), (-1 : Int)), (-1, 1), (1, -1), (1, 1)].flatMap fun d =>
    slideAccesses b row col d 1 7

def queenAccesses (b : Board) (row col : Int) : List (Int × Int) :=
  rookAccesses b row col ++ bishopAccesses b row col

/-- The knight generator reads each target square once, after its
in-bounds guard. -/
def knightAccesses (row col : Int) : List (Int × Int) :=
  knightOffsets.flatMap fun m =>
    let er := row + m.1
    let ec := col + m.2
    if InR er ec then [(er, ec)] else []

/-- The king generator reads each in-bounds target square twice (once per
duplicated block). -/
def kingAccesses (row col : Int) : List (Int × Int) :=
  kingOffsets.flatMap fun m =>
    let er := row + m.1
    let ec := col + m.2
    if InR er ec then [(er, ec), (er, ec)] else []

/-- Dispatch of the index-pair lists by piece type. -/
def pieceAccesses (piece : Char) (b : Board) (w : Bool) (row col : Int) :
    List (Int × Int) :=
  match piece with
  | 'p' => pawnAccesses b w row col
  | 'R' => rookAccesses b row col
  | 'N' => knightAccesses row col
  | 'B' => bishopAccesses b row col
  | 'Q' => queenAccesses b row col
  | 'K' => kingAccesses row col
  | _ => []

/-- A cell holds a valid piece code or the empty sentinel. -/
def validSq (p : Sq) : Bool :=
  p == dash || p == wp || p == wR || p == wN || p == wB || p == wQ || p == wK ||
    p == bp || p == bR || p == bN || p == bB || p == bQ || p == bK

def validBoard (b : Board) : Bool := b.all fun row => row.all validSq

lemma mem_ite_nil_cond {α : Type} {P : Prop} [Decidable P] {p : α} {l : List α}
    (h : p ∈ if P then l else []) : P ∧ p ∈ l := by
  split at h
  · next hP => exact ⟨hP, h⟩
  · simp at h

lemma validBoard_bget (b : Board) (hv : validBoard b = true) (r c : Int) :
    validSq (bget b r c) = true := by
  unfold bget
  split
  · by_cases hr : r.toNat < b.length
    · have hrow : b.getD r.toNat [] ∈ b := by
        rw [List.getD_eq_getElem _ _ hr]
        exact List.getElem_mem hr
      by_cases hc : c.toNat < (b.getD r.toNat []).length
      · have hcell : (b.getD r.toNat []).getD c.toNat dash ∈ b.getD r.toNat [] := by
          rw [List.getD_eq_getElem _ _ hc]
          exact List.getElem_mem hc
        have h1 := (List.all_eq_true.mp hv) _ hrow
        exact (List.all_eq_true.mp h1) _ hcell
      · rw [List.getD_eq_default _ _ (Nat.le_of_not_lt hc)]
        decide
    · rw [List.getD_eq_default _ _ (Nat.le_of_not_lt hr), List.getD_nil]
      decide
  · decide

lemma validSq_piece {p : Sq} (hv : validSq p = true) (hc : p.1 ≠ '-') :
    p.2 = 'p' ∨ p.2 = 'R' ∨ p.2 = 'N' ∨ p.2 = 'B' ∨ p.2 = 'Q' ∨ p.2 = 'K' := by
  have hv2 : p = dash ∨ p = wp ∨ p = wR ∨ p = wN ∨ p = wB ∨ p = wQ ∨ p = wK ∨
      p = bp ∨ p = bR ∨ p = bN ∨ p = bB ∨ p = bQ ∨ p = bK := by
    unfold validSq at hv
    simp only [Bool.or_eq_true, beq_iff_eq] at hv
    tauto
  rcases hv2 with h | h | h | h | h | h | h | h | h | h | h | h | h <;> subst h <;>
    first
      | (exact absurd (by decide) hc)
      | decide

lemma slideAccesses_inR (b : Board) (row col : Int) (d : Int × Int) :
    ∀ (fuel : Nat) (i : Int), ∀ p ∈ slideAccesses b row col d i fuel, InR p.1 p.2 := by
  intro fuel
  induction fuel with
  | zero => intro i p hp; simp [slideAccesses] at hp
  | succ fuel ih =>
    intro i p hp
    simp only [slideAccesses] at hp
    by_cases h : InR (row + d.1 * i) (col + d.2 * i)
    · rw [if_pos h] at hp
      rcases List.mem_cons.mp hp with rfl | hp2
      · exact h
      · rcases mem_ite_nil_cond hp2 with ⟨_, hp3⟩
        exact ih (i + 1) p hp3
    · rw [if_neg h] at hp
      simp at hp

/-- A valid board with a white pawn standing on its own promotion rank
(row 0). -/
def pawnEdgeBoard : Board :=
  [[wp, dash, dash, dash, dash, dash, dash, dash],
   rowDash, rowDash, rowDash, rowDash, rowDash, rowDash, rowDash]

/-- Claim C6, counterexample: on a board whose every cell is a valid code
or the sentinel, with the in-range square (0,0) occupied by a white pawn
and white to move, the pawn generator forms the board index (-1, 0) —
outside [0,7].  The claim quantified over every such board/square is
therefore false. -/
theorem C6_counterexample :
    validBoard pawnEdgeBoard = true ∧ WF8 pawnEdgeBoard ∧ InR 0 0 ∧
      (bget pawnEdgeBoard 0 0).1 = allyOf true ∧
      ¬ ∀ p ∈ pieceAccesses (bget pawnEdgeBoard 0 0).2 pawnEdgeBoard true 0 0,
          InR p.1 p.2 := by decide

/-- Claim C6 (amended): on every board of valid piece codes, for every
in-range square occupied by a piece of the side to move that is not a pawn
standing on its own promotion rank (white pawn on row 0, black pawn on
row 7), the dispatched per-piece generator forms only board indices with
row and column inside [0,7]; the exclusion is forced by the pawn
generator's unguarded row offsets. -/
theorem C6_generators_in_bounds (b : Board) (w : Bool) (row col : Int)
    (hv : validBoard b = true) (hin : InR row col)
    (hmover : (bget b row col).1 = allyOf w)
    (hpawn : (bget b row col).2 = 'p' → (w = true → 1 ≤ row) ∧ (w = false → row ≤ 6)) :
    ∀ p ∈ pieceAccesses (bget b row col).2 b w row col, InR p.1 p.2 := by
  have hvp := validBoard_bget b hv row col
  have hcdash : (bget b row col).1 ≠ '-' := by
    rw [hmover]; cases w <;> decide
  have hb := inR_elim hin
  rcases validSq_piece hvp hcdash with h | h | h | h | h | h <;> rw [h] <;>
    simp only [pieceAccesses]
  · have hrow := hpawn h
    intro p hp
    cases w with
    | true =>
      have h1 : (1 : Int) ≤ row := hrow.1 rfl
      simp only [pawnAccesses, if_pos] at hp
      rw [List.mem_append, List.mem_append, List.mem_append] at hp
      rcases hp with ((hp | hp) | hp) | hp
      · rcases List.mem_singleton.mp hp with rfl
        exact ⟨by omega, by omega, by omega, by omega⟩
      · rcases mem_ite_nil_cond hp with ⟨⟨_, h6⟩, hp2⟩
        rcases List.mem_singleton.mp hp2 with rfl
        exact ⟨by omega, by omega, by omega, by omega⟩
      · rcases mem_ite_nil_cond hp with ⟨hcg, hp2⟩
        rcases List.mem_singleton.mp hp2 with rfl
        exact ⟨by omega, by omega, by omega, by omega⟩
      · rcases mem_ite_nil_cond hp with ⟨hcg, hp2⟩
        rcases List.mem_singleton.mp hp2 with rfl
        exact ⟨by omega, by omega, by omega, by omega⟩
    | false =>
      have h1 : row ≤ 6 := hrow.2 rfl
      simp only [pawnAccesses, if_neg (by simp : ¬ (false = true))] at hp
      rw [List.mem_append, List.mem_append, List.mem_append] at hp
      rcases hp with ((hp | hp) | hp) | hp
      · rcases List.mem_singleton.mp hp with rfl
        exact ⟨by omega, by omega, by omega, by omega⟩
      · rcases mem_ite_nil_cond hp with ⟨⟨_, h6⟩, hp2⟩
        rcases List.mem_singleton.mp hp2 with rfl
        exact ⟨by omega, by omega, by omega, by omega⟩
      · rcases mem_ite_nil_cond hp with ⟨hcg, hp2⟩
        rcases List.mem_singleton.mp hp2 with rfl
        exact ⟨by omega, by omega, by omega, by omega⟩
      · rcases mem_ite_nil_cond hp with ⟨hcg, hp2⟩
        rcases List.mem_singleton.mp hp2 with rfl
        exact ⟨by omega, by omega, by omega, by omega⟩
  · intro p hp
    rcases List.mem_flatMap.mp hp with ⟨d, _, hp2⟩
    exact slideAccesses_inR b row col d 7 1 p hp2
  · intro p hp
    rcases List.mem_flatMap.mp hp with ⟨m, _, hp2⟩
    rcases mem_ite_nil_cond hp2 with ⟨hinr, hp3⟩
    rcases List.mem_singleton.mp hp3 with rfl
    exact hinr
  · intro p hp
    rcases List.mem_flatMap.mp hp with ⟨d, _, hp2⟩
    exact slideAccesses_inR b row col d 7 1 p hp2
  · intro p hp
    rw [queenAccesses, List.mem_append] at hp
    rcases hp with hp | hp
    · rcases List.mem_flatMap.mp hp with ⟨d, _, hp2⟩
      exact slideAccesses_inR b row col d 7 1 p hp2
    · rcases List.mem_flatMap.mp hp with ⟨d, _, hp2⟩
      exact slideAccesses_inR b row col d 7 1 p hp2
  · intro p hp
    rcases List.mem_flatMap.mp hp with ⟨m, _, hp2⟩
    rcases mem_ite_nil_cond hp2 with ⟨hinr, hp3⟩
    rcases List.mem_cons.mp hp3 with rfl | hp4
    · exact hinr
    · rcases List.mem_singleton.mp hp4 with rfl
      exact hinr

/-- Witness for C6: the white pawn on (6,0) of the initial board forms
the in-range index (5,0). -/
theorem C6_generators_in_bounds_witness : InR 5 0 :=
  C6_generators_in_bounds initBoard true 6 0 (by decide) (by decide) (by decide)
    (by decide) (5, 0) (by decide)

/-! ### Structure of generated moves -/

/-- Facts holding of every pseudo-legal move generated on board `b` with
side `w` to move: the piece fields were read from the board at the move's
squares, the start square is in range, the moved piece belongs to the
mover, the destination does not hold a mover piece, and every non-pawn
move has an in-range destination. -/
structure MoveWF (b : Board) (w : Bool) (m : Move) : Prop where
  hpm : m.piece_moved = bget b m.start_row m.start_col
  hpc : m.piece_captured = bget b m.end_row m.end_col
  hsr : InR m.start_row m.start_col
  hcol : m.piece_moved.1 = allyOf w
  hdest : (bget b m.end_row m.end_col).1 ≠ allyOf w
  hendK : m.piece_moved.2 ≠ 'p' → InR m.end_row m.end_col

lemma dash_fst_ne_ally (w : Bool) : dash.1 ≠ allyOf w := by
  cases w <;> decide

lemma enemy_ne_ally (w : Bool) : enemyOf w ≠ allyOf w := by
  cases w <;> decide

lemma pawnMoves_wf (b : Board) (w : Bool) (row col : Int)
    (hin : InR row col) (hsq : (bget b row col).1 = allyOf w)
    (hpp : (bget b row col).2 = 'p') :
    ∀ m ∈ getPawnMoves b w row col, MoveWF b w m := by
  intro m hm
  have hvac : ∀ e : Int × Int,
      (mkMove (row, col) e b).piece_moved.2 ≠ 'p' → InR (mkMove (row, col) e b).end_row (mkMove (row, col) e b).end_col := by
    intro e hne
    exact absurd hpp hne
  cases w with
  | true =>
    simp only [getPawnMoves, if_true, List.mem_append] at hm
    rcases hm with (hm | hm) | hm
    · rcases mem_ite_nil_cond hm with ⟨hda, hm2⟩
      rcases List.mem_cons.mp hm2 with rfl | hm3
      · exact ⟨rfl, rfl, hin, hsq, by simp only [mkMove]; rw [hda]; exact dash_fst_ne_ally true, hvac _⟩
      · rcases mem_ite_nil_cond hm3 with ⟨⟨h6, hd2⟩, hm4⟩
        rcases List.mem_singleton.mp hm4 with rfl
        exact ⟨rfl, rfl, hin, hsq, by simp only [mkMove]; rw [hd2]; exact dash_fst_ne_ally true, hvac _⟩
    · rcases mem_ite_nil_cond hm with ⟨hcg, hm2⟩
      rcases mem_ite_nil_cond hm2 with ⟨hene, hm3⟩
      rcases List.mem_singleton.mp hm3 with rfl
      refine ⟨rfl, rfl, hin, hsq, ?_, hvac _⟩
      simp only [mkMove]
      rw [hene]; decide
    · rcases mem_ite_nil_cond hm with ⟨hcg, hm2⟩
      rcases mem_ite_nil_cond hm2 with ⟨hene, hm3⟩
      rcases List.mem_singleton.mp hm3 with rfl
      refine ⟨rfl, rfl, hin, hsq, ?_, hvac _⟩
      simp only [mkMove]
      rw [hene]; decide
  | false =>
    simp only [getPawnMoves, Bool.false_eq_true, if_false, List.mem_append] at hm
    rcases hm with (hm | hm) | hm
    · rcases mem_ite_nil_cond hm with ⟨hda, hm2⟩
      rcases List.mem_cons.mp hm2 with rfl | hm3
      · exact ⟨rfl, rfl, hin, hsq, by simp only [mkMove]; rw [hda]; exact dash_fst_ne_ally false, hvac _⟩
      · rcases mem_ite_nil_cond hm3 with ⟨⟨h6, hd2⟩, hm4⟩
        rcases List.mem_singleton.mp hm4 with rfl
        exact ⟨rfl, rfl, hin, hsq, by simp only [mkMove]; rw [hd2]; exact dash_fst_ne_ally false, hvac _⟩
    · rcases mem_ite_nil_cond hm with ⟨hcg, hm2⟩
      rcases mem_ite_nil_cond hm2 with ⟨hene, hm3⟩
      rcases List.mem_singleton.mp hm3 with rfl
      refine ⟨rfl, rfl, hin, hsq, ?_, hvac _⟩
      simp only [mkMove]
      rw [hene]; decide
    · rcases mem_ite_nil_cond hm with ⟨hcg, hm2⟩
      rcases mem_ite_nil_cond hm2 with ⟨hene, hm3⟩
      rcases List.mem_singleton.mp hm3 with rfl
      refine ⟨rfl, rfl, hin, hsq, ?_, hvac _⟩
      simp only [mkMove]
      rw [hene]; decide

lemma slideFrom_wf (b : Board) (w : Bool) (row col : Int)
    (hin : InR row col) (hsq : (bget b row col).1 = allyOf w) :
    ∀ (fuel : Nat) (i : Int) (d : Int × Int),
      ∀ m ∈ slideFrom b (enemyOf w) row col d i fuel, MoveWF b w m := by
  intro fuel
  induction fuel with
  | zero => intro i d m hm; simp [slideFrom] at hm
  | succ fuel ih =>
    intro i d m hm
    simp only [slideFrom] at hm
    by_cases hb : InR (row + d.1 * i) (col + d.2 * i)
    · rw [if_pos hb] at hm
      by_cases hd : bget b (row + d.1 * i) (col + d.2 * i) = dash
      · rw [if_pos hd] at hm
        rcases List.mem_cons.mp hm with rfl | hm2
        · exact ⟨rfl, rfl, hin, hsq, by simp only [mkMove]; rw [hd]; exact dash_fst_ne_ally w,
            fun _ => hb⟩
        · exact ih (i + 1) d m hm2
      · rw [if_neg hd] at hm
        by_cases he : (bget b (row + d.1 * i) (col + d.2 * i)).1 = enemyOf w
        · rw [if_pos he] at hm
          rcases List.mem_singleton.mp hm with rfl
          exact ⟨rfl, rfl, hin, hsq, by simp only [mkMove]; rw [he]; exact enemy_ne_ally w,
            fun _ => hb⟩
        · rw [if_neg he] at hm
          simp at hm
    · rw [if_neg hb] at hm
      simp at hm

lemma rookMoves_wf (b : Board) (w : Bool) (row col : Int)
    (hin : InR row col) (hsq : (bget b row col).1 = allyOf w) :
    ∀ m ∈ getRookMoves b w row col, MoveWF b w m := by
  intro m hm
  rcases List.mem_flatMap.mp hm with ⟨d, _, hm2⟩
  exact slideFrom_wf b w row col hin hsq 7 1 d m hm2

lemma bishopMoves_wf (b : Board) (w : Bool) (row col : Int)
    (hin : InR row col) (hsq : (bget b row col).1 = allyOf w) :
    ∀ m ∈ getBishopMoves b w row col, MoveWF b w m := by
  intro m hm
  rcases List.mem_flatMap.mp hm with ⟨d, _, hm2⟩
  exact slideFrom_wf b w row col hin hsq 7 1 d m hm2

lemma queenMoves_wf (b : Board) (w : Bool) (row col : Int)
    (hin : InR row col) (hsq : (bget b row col).1 = allyOf w) :
    ∀ m ∈ getQueenMoves b w row col, MoveWF b w m := by
  intro m hm
  rw [getQueenMoves, List.mem_append] at hm
  rcases hm with hm | hm
  · exact rookMoves_wf b w row col hin hsq m hm
  · exact bishopMoves_wf b w row col hin hsq m hm

lemma knightMoves_wf (b : Board) (w : Bool) (row col : Int)
    (hin : InR row col) (hsq : (bget b row col).1 = allyOf w) :
    ∀ m ∈ getKnightMoves b w row col, MoveWF b w m := by
  intro m hm
  rcases List.mem_flatMap.mp hm with ⟨o, _, hm2⟩
  dsimp only at hm2
  rcases mem_ite_nil_cond hm2 with ⟨hb, hm3⟩
  rcases mem_ite_nil_cond hm3 with ⟨hne, hm4⟩
  rcases List.mem_singleton.mp hm4 with rfl
  exact ⟨rfl, rfl, hin, hsq, hne, fun _ => hb⟩

lemma kingMoves_wf (b : Board) (w : Bool) (row col : Int)
    (hin : InR row col) (hsq : (bget b row col).1 = allyOf w) :
    ∀ m ∈ getKingMoves b w row col, MoveWF b w m := by
  intro m hm
  rcases List.mem_flatMap.mp hm with ⟨o, _, hm2⟩
  dsimp only at hm2
  rw [List.mem_append] at hm2
  rcases hm2 with hm2 | hm2 <;>
  · rcases mem_ite_nil_cond hm2 with ⟨hb, hm3⟩
    rcases mem_ite_nil_cond hm3 with ⟨hne, hm4⟩
    rcases List.mem_singleton.mp hm4 with rfl
    exact ⟨rfl, rfl, hin, hsq, hne, fun _ => hb⟩

lemma pieceMoves_wf (b : Board) (w : Bool) (row col : Int)
    (hin : InR row col) (hsq : (bget b row col).1 = allyOf w) :
    ∀ m ∈ pieceMoves (bget b row col).2 b w row col, MoveWF b w m := by
  intro m hm
  unfold pieceMoves at hm
  split at hm
  · exact pawnMoves_wf b w row col hin hsq (by assumption) m hm
  · exact rookMoves_wf b w row col hin hsq m hm
  · exact knightMoves_wf b w row col hin hsq m hm
  · exact bishopMoves_wf b w row col hin hsq m hm
  · exact queenMoves_wf b w row col hin hsq m hm
  · exact kingMoves_wf b w row col hin hsq m hm
  · simp at hm

lemma getAllPossibleMoves_wf (s : GameState) (hwf : WF8 s.board) :
    ∀ m ∈ getAllPossibleMoves s, MoveWF s.board s.white_to_move m := by
  intro m hm
  unfold getAllPossibleMoves at hm
  rcases List.mem_flatMap.mp hm with ⟨r, hr, hm2⟩
  dsimp only at hm2
  rcases List.mem_flatMap.mp hm2 with ⟨c, hc, hm3⟩
  rcases mem_ite_nil_cond hm3 with ⟨hcond, hm4⟩
  have hrlt : r < s.board.length := List.mem_range.mp hr
  have hr8 : r < 8 := by rw [← hwf.1]; exact hrlt
  have hrowmem : s.board.getD r [] ∈ s.board := by
    rw [List.getD_eq_getElem _ _ hrlt]
    exact List.getElem_mem hrlt
  have hclt : c < (s.board.getD r []).length := List.mem_range.mp hc
  have hc8 : c < 8 := by rw [← hwf.2 _ hrowmem]; exact hclt
  have hin : InR (r : Int) (c : Int) :=
    ⟨Int.natCast_nonneg r, by exact_mod_cast hr8, Int.natCast_nonneg c, by exact_mod_cast hc8⟩
  have hbg : bget s.board (r : Int) (c : Int) = (s.board.getD r []).getD c dash := by
    unfold bget
    rw [if_pos hin, Int.toNat_natCast, Int.toNat_natCast]
  have hsq : (bget s.board (r : Int) (c : Int)).1 = allyOf s.white_to_move := by
    rw [hbg]
    rcases hcond with ⟨h1, h2⟩ | ⟨h1, h2⟩
    · rw [h1]; unfold allyOf; rw [if_pos h2]
    · rw [h1]; unfold allyOf; rw [if_neg h2]
  rw [← hbg] at hm4
  exact pieceMoves_wf s.board s.white_to_move (r : Int) (c : Int) hin hsq m hm4

/-! ### The legality filter loop -/

lemma removeFirstEq_cons (a : Move) (rest : List Move) (x : Move) :
    removeFirstEq (a :: rest) x =
      if a.moveId = x.moveId then rest else a :: removeFirstEq rest x := rfl

lemma removeFirstEq_sublist (l : List Move) (x : Move) :
    List.Sublist (removeFirstEq l x) l := by
  induction l with
  | nil => exact List.Sublist.refl []
  | cons a rest ih =>
    rw [removeFirstEq_cons]
    split
    · exact List.sublist_cons_self a rest
    · exact List.Sublist.cons₂ a ih

lemma removeFirstEq_length (l : List Move) (x : Move) :
    ∀ j : Nat, j < l.length → (l.getD j noMove).moveId = x.moveId →
      (removeFirstEq l x).length + 1 = l.length := by
  induction l with
  | nil => intro j hj; simp at hj
  | cons a rest ih =>
    intro j hj hx
    rw [removeFirstEq_cons]
    split
    · simp
    · next hne =>
      cases j with
      | zero => exact absurd (by simpa [List.getD] using hx) hne
      | succ j =>
        have hj' : j < rest.length := by simpa using hj
        have hx' : (rest.getD j noMove).moveId = x.moveId := by
          simpa [List.getD] using hx
        simpa using ih j hj' hx'

lemma removeFirstEq_getD (l : List Move) (x : Move) :
    ∀ j : Nat, j < l.length → (l.getD j noMove).moveId = x.moveId →
      ∀ k : Nat, j ≤ k →
        (removeFirstEq l x).getD k noMove = l.getD (k + 1) noMove := by
  induction l with
  | nil => intro j hj; simp at hj
  | cons a rest ih =>
    intro j hj hx k hjk
    rw [removeFirstEq_cons]
    by_cases ha : a.moveId = x.moveId
    · rw [if_pos ha]
      simp [List.getD]
    · rw [if_neg ha]
      cases j with
      | zero => exact absurd (by simpa [List.getD] using hx) ha
      | succ j =>
        cases k with
        | zero => omega
        | succ k =>
          have hj' : j < rest.length := by simpa using hj
          have hx' : (rest.getD j noMove).moveId = x.moveId := by
            simpa [List.getD] using hx
          have := ih j hj' hx' k (by omega)
          simpa [List.getD] using this

lemma squareUnderAttack_state (s : GameState) (r c : Int) :
    (squareUnderAttack s r c).1 = s :=
  flip_flip s

lemma inCheck_state (s : GameState) : (inCheck s).1 = s := by
  unfold inCheck
  split <;> exact squareUnderAttack_state s _ _

/-- The legality test the filter loop performs on a candidate move: after
tentatively applying it and flipping back to the mover's perspective, the
mover is not in check. -/
def SafeMove (s : GameState) (m : Move) : Prop :=
  (inCheck (flipTurn (makeMove s m))).2 = false

/-- The conditions under which one filter-loop iteration on move `m`
restores the state exactly. -/
def RestoreOK (s : GameState) (m : Move) : Prop :=
  m.piece_moved = bget s.board m.start_row m.start_col ∧
  m.piece_captured = bget s.board m.end_row m.end_col ∧
  (m.piece_moved = wK → s.white_king_location = (m.start_row, m.start_col)) ∧
  (m.piece_moved = bK → s.black_king_location = (m.start_row, m.start_col))

lemma iter_restore (s : GameState) (m : Move) (h : RestoreOK s m) :
    undoMove (flipTurn (inCheck (flipTurn (makeMove s m))).1) = s := by
  rw [inCheck_state, flip_flip]
  exact make_undo s m h.1 h.2.1 h.2.2.1 h.2.2.2

lemma gvmLoop_spec (s : GameState) :
    ∀ (i : Nat) (ms : List Move), i ≤ ms.length →
      (∀ m ∈ ms, RestoreOK s m) →
      (∀ k : Nat, k < ms.length → i ≤ k → SafeMove s (ms.getD k noMove)) →
      (gvmLoop s ms i).1 = s ∧ List.Sublist (gvmLoop s ms i).2 ms ∧
        ∀ m ∈ (gvmLoop s ms i).2, SafeMove s m := by
  intro i
  induction i with
  | zero =>
    intro ms _ _ hsafe
    simp only [gvmLoop]
    refine ⟨trivial, List.Sublist.refl ms, ?_⟩
    intro m hm
    rcases List.mem_iff_getElem.mp hm with ⟨k, hk, rfl⟩
    rw [← List.getD_eq_getElem ms noMove hk]
    exact hsafe k hk (Nat.zero_le k)
  | succ i ih =>
    intro ms hlen hres hsafe
    have hi : i < ms.length := hlen
    have hmm : ms.getD i noMove ∈ ms := by
      rw [List.getD_eq_getElem ms noMove hi]
      exact List.getElem_mem hi
    have hrest : undoMove (flipTurn (inCheck (flipTurn (makeMove s (ms.getD i noMove)))).1) = s :=
      iter_restore s (ms.getD i noMove) (hres _ hmm)
    rw [gvmLoop, hrest]
    by_cases hchk : (inCheck (flipTurn (makeMove s (ms.getD i noMove)))).2 = true
    · rw [if_pos hchk]
      have hx : (ms.getD i noMove).moveId = (ms.getD i noMove).moveId := rfl
      have hlen2 := removeFirstEq_length ms (ms.getD i noMove) i hi hx
      have hlen' : i ≤ (removeFirstEq ms (ms.getD i noMove)).length := by omega
      have hres' : ∀ m ∈ removeFirstEq ms (ms.getD i noMove), RestoreOK s m := fun m hm =>
        hres m ((removeFirstEq_sublist ms (ms.getD i noMove)).mem hm)
      have hsafe' : ∀ k : Nat, k < (removeFirstEq ms (ms.getD i noMove)).length → i ≤ k →
          SafeMove s ((removeFirstEq ms (ms.getD i noMove)).getD k noMove) := by
        intro k hk hik
        rw [removeFirstEq_getD ms (ms.getD i noMove) i hi hx k hik]
        exact hsafe (k + 1) (by omega) (by omega)
      obtain ⟨h1, h2, h3⟩ := ih (removeFirstEq ms (ms.getD i noMove)) hlen' hres' hsafe'
      exact ⟨h1, h2.trans (removeFirstEq_sublist ms (ms.getD i noMove)), h3⟩
    · rw [if_neg hchk]
      have hsafe' : ∀ k : Nat, k < ms.length → i ≤ k → SafeMove s (ms.getD k noMove) := by
        intro k hk hik
        rcases Nat.eq_or_lt_of_le hik with rfl | hlt
        · exact Bool.eq_false_iff.mpr hchk
        · exact hsafe k hk hlt
      exact ih ms (Nat.le_of_lt hi) hres hsafe'

lemma getValidMoves_snd (s : GameState) :
    (getValidMoves s).2 =
      (gvmLoop s (getAllPossibleMoves s) (getAllPossibleMoves s).length).2 := by
  simp only [getValidMoves]
  split
  · split <;> rfl
  · rfl

lemma getValidMoves_fst (s : GameState)
    (hres : ∀ m ∈ getAllPossibleMoves s, RestoreOK s m) :
    (getValidMoves s).1 =
      if (getValidMoves s).2.length = 0 then
        (if (inCheck s).2 = true then { s with check_mate := true }
         else { s with stale_mate := true })
      else { s with check_mate := false, stale_mate := false } := by
  obtain ⟨h1, -, -⟩ := gvmLoop_spec s (getAllPossibleMoves s).length (getAllPossibleMoves s)
    le_rfl hres (fun k hk hik => absurd hk (by omega))
  rw [getValidMoves_snd]
  simp only [getValidMoves]
  rw [h1, inCheck_state]
  split
  · split <;> rfl
  · rfl

lemma getValidMoves_core (s : GameState)
    (hres : ∀ m ∈ getAllPossibleMoves s, RestoreOK s m) :
    (getValidMoves s).1.board = s.board ∧
    (getValidMoves s).1.white_to_move = s.white_to_move ∧
    (getValidMoves s).1.move_log = s.move_log ∧
    (getValidMoves s).1.white_king_location = s.white_king_location ∧
    (getValidMoves s).1.black_king_location = s.black_king_location := by
  rw [getValidMoves_fst s hres]
  split
  · split <;> exact ⟨rfl, rfl, rfl, rfl, rfl⟩
  · exact ⟨rfl, rfl, rfl, rfl, rfl⟩

lemma getValidMoves_safe (s : GameState)
    (hres : ∀ m ∈ getAllPossibleMoves s, RestoreOK s m) :
    ∀ m ∈ (getValidMoves s).2, SafeMove s m := by
  obtain ⟨-, -, h3⟩ := gvmLoop_spec s (getAllPossibleMoves s).length (getAllPossibleMoves s)
    le_rfl hres (fun k hk hik => absurd hk (by omega))
  intro m hm
  rw [getValidMoves_snd] at hm
  exact h3 m hm

lemma getValidMoves_sub (s : GameState)
    (hres : ∀ m ∈ getAllPossibleMoves s, RestoreOK s m) :
    List.Sublist (getValidMoves s).2 (getAllPossibleMoves s) := by
  obtain ⟨-, h2, -⟩ := gvmLoop_spec s (getAllPossibleMoves s).length (getAllPossibleMoves s)
    le_rfl hres (fun k hk hik => absurd hk (by omega))
  rw [getValidMoves_snd]
  exact h2

/-! ### King-location cache consistency -/

/-- The cache entry `loc` points at a cell holding exactly the king code
`p`, and no other in-range cell holds `p`. -/
def uniqueKing (b : Board) (p : Sq) (loc : Int × Int) : Bool :=
  (bget b loc.1 loc.2 == p) &&
    ((List.range 8).all fun r => (List.range 8).all fun c =>
      !(bget b (r : Int) (c : Int) == p) || ((r : Int) == loc.1 && (c : Int) == loc.2))

/-- Both king-location cache entries match the unique board position of
the corresponding king. -/
def kingsOK (s : GameState) : Bool :=
  uniqueKing s.board wK s.white_king_location &&
    uniqueKing s.board bK s.black_king_location

lemma uniqueKing_at {b : Board} {p : Sq} {loc : Int × Int}
    (h : uniqueKing b p loc = true) : bget b loc.1 loc.2 = p := by
  unfold uniqueKing at h
  rw [Bool.and_eq_true] at h
  exact beq_iff_eq.mp h.1

lemma uniqueKing_unique {b : Board} {p : Sq} {loc : Int × Int}
    (h : uniqueKing b p loc = true) {r c : Int} (hin : InR r c)
    (hg : bget b r c = p) : (r, c) = loc := by
  unfold uniqueKing at h
  rw [Bool.and_eq_true] at h
  have h2 := List.all_eq_true.mp h.2
  have e := inR_elim hin
  have hr : r.toNat ∈ List.range 8 := List.mem_range.mpr (by omega)
  have h3 := List.all_eq_true.mp (h2 _ hr)
  have hc : c.toNat ∈ List.range 8 := List.mem_range.mpr (by omega)
  have h4 := h3 _ hc
  rw [Int.toNat_of_nonneg e.1, Int.toNat_of_nonneg e.2.2.1] at h4
  rw [hg] at h4
  simp only [beq_self_eq_true, Bool.not_true, Bool.false_or, Bool.and_eq_true,
    beq_iff_eq] at h4
  rw [Prod.ext_iff]
  exact h4

lemma uniqueKing_intro (b : Board) (K : Sq) (loc : Int × Int)
    (h1 : bget b loc.1 loc.2 = K)
    (h2 : ∀ r c : Int, InR r c → bget b r c = K → (r, c) = loc) :
    uniqueKing b K loc = true := by
  unfold uniqueKing
  rw [Bool.and_eq_true]
  constructor
  · exact beq_iff_eq.mpr h1
  · rw [List.all_eq_true]
    intro r hr
    rw [List.all_eq_true]
    intro c hc
    simp only [Bool.or_eq_true, Bool.not_eq_true', beq_eq_false_iff_ne, ne_eq,
      Bool.and_eq_true, beq_iff_eq]
    by_cases hg : bget b (r : Int) (c : Int) = K
    · right
      have hin : InR (r : Int) (c : Int) :=
        ⟨Int.natCast_nonneg r, by exact_mod_cast List.mem_range.mp hr,
         Int.natCast_nonneg c, by exact_mod_cast List.mem_range.mp hc⟩
      have h3 := h2 _ _ hin hg
      rw [Prod.ext_iff] at h3
      exact h3
    · left
      exact hg

lemma restoreOK_of_wf (s : GameState) (m : Move) (hk : kingsOK s = true)
    (hwf : MoveWF s.board s.white_to_move m) : RestoreOK s m := by
  rw [kingsOK, Bool.and_eq_true] at hk
  refine ⟨hwf.hpm, hwf.hpc, ?_, ?_⟩
  · intro hKw
    have hg : bget s.board m.start_row m.start_col = wK := by
      rw [← hwf.hpm]; exact hKw
    exact (uniqueKing_unique hk.1 hwf.hsr hg).symm
  · intro hKb
    have hg : bget s.board m.start_row m.start_col = bK := by
      rw [← hwf.hpm]; exact hKb
    exact (uniqueKing_unique hk.2 hwf.hsr hg).symm

/-! ### Claim C10: frame effects -/

set_option maxRecDepth 100000 in
/-- Claim C10, counterexample: on a state whose white-king cache entry
(5,5) disagrees with the board's white king at (0,0), `get_valid_moves`
rewrites the cache entry to (0,0): the king-location cache does not equal
its value at call entry, so the claim quantified over every state is
false. -/
theorem C10_counterexample :
    (getValidMoves cacheMismatchState).1.white_king_location ≠
      cacheMismatchState.white_king_location := by decide

/-- Claim C10 (amended): `square_under_attack` always returns the state
exactly as it was at entry; `get_valid_moves` leaves board, side-to-move
flag, move history, and both king-location cache entries at their entry
values (only the terminal flags may change) provided the board is 8×8 and
the king-location caches match the board's unique kings — as they do in
every state reachable by legal play. -/
theorem C10_frame (s : GameState) :
    (∀ r c : Int, (squareUnderAttack s r c).1 = s) ∧
    (WF8 s.board → kingsOK s = true →
      (getValidMoves s).1.board = s.board ∧
      (getValidMoves s).1.white_to_move = s.white_to_move ∧
      (getValidMoves s).1.move_log = s.move_log ∧
      (getValidMoves s).1.white_king_location = s.white_king_location ∧
      (getValidMoves s).1.black_king_location = s.black_king_location) := by
  refine ⟨fun r c => squareUnderAttack_state s r c, fun hwf hk => ?_⟩
  exact getValidMoves_core s
    (fun m hm => restoreOK_of_wf s m hk (getAllPossibleMoves_wf s hwf m hm))

set_option maxRecDepth 100000 in
/-- Witness for C10 at the initial state. -/
theorem C10_frame_witness :
    (getValidMoves initGameState).1.board = initGameState.board ∧
    (getValidMoves initGameState).1.white_to_move = initGameState.white_to_move ∧
    (getValidMoves initGameState).1.move_log = initGameState.move_log ∧
    (getValidMoves initGameState).1.white_king_location =
      initGameState.white_king_location ∧
    (getValidMoves initGameState).1.black_king_location =
      initGameState.black_king_location :=
  (C10_frame initGameState).2 (by decide) (by decide)

/-! ### Claim C4: terminal flags -/

/-- A stalemate position for black: black king cornered on (0,0) by the
white queen on (1,2); white king far away on (4,4). -/
def staleBoard : Board :=
  [[bK, dash, dash, dash, dash, dash, dash, dash],
   [dash, dash, wQ, dash, dash, dash, dash, dash],
   rowDash, rowDash,
   [dash, dash, dash, dash, wK, dash, dash, dash],
   rowDash, rowDash, rowDash]

/-- The stalemate position entered with the checkmate flag still set (as
after undoing out of an earlier checkmate without clearing flags). -/
def staleWithMateState : GameState :=
  { board := staleBoard, white_to_move := false, move_log := [],
    white_king_location := (4, 4), black_king_location := (0, 0),
    check_mate := true, stale_mate := false }

set_option maxRecDepth 100000 in
/-- Claim C4, counterexample: calling `get_valid_moves` on a stalemate
position whose `check_mate` flag is already true sets `stale_mate` without
clearing `check_mate`, leaving BOTH flags true — refuting "the two flags
are never simultaneously true" and "exactly one" as stated over every
call. -/
theorem C4_counterexample :
    (getValidMoves staleWithMateState).1.check_mate = true ∧
      (getValidMoves staleWithMateState).1.stale_mate = true := by decide

/-- Claim C4 (amended): the terminal flags are false on a fresh state and
untouched by `make_move`/`undo_move` (so both are false before
`get_valid_moves` has ever run); and for any call of `get_valid_moves` on
a state whose two flags are both false at entry (with an 8×8 board and
king caches matching the board's kings, as in reachable play), the
returned list is empty iff exactly one flag is true afterwards,
`check_mate` is set iff the list is empty and the side to move is in
check, `stale_mate` iff the list is empty and it is not, a non-empty list
leaves both flags false, and the flags are never simultaneously true.
Without the both-false entry hypothesis the stale flag of the other kind
can survive, as the counterexample shows. -/
theorem C4_terminal_flags :
    (initGameState.check_mate = false ∧ initGameState.stale_mate = false) ∧
    (∀ (s : GameState) (m : Move),
        (makeMove s m).check_mate = s.check_mate ∧
        (makeMove s m).stale_mate = s.stale_mate ∧
        (undoMove s).check_mate = s.check_mate ∧
        (undoMove s).stale_mate = s.stale_mate) ∧
    ∀ s : GameState, s.check_mate = false → s.stale_mate = false →
      WF8 s.board → kingsOK s = true →
        ((getValidMoves s).2 = [] ↔
          ((getValidMoves s).1.check_mate = true ∧
            (getValidMoves s).1.stale_mate = false) ∨
          ((getValidMoves s).1.stale_mate = true ∧
            (getValidMoves s).1.check_mate = false)) ∧
        ((getValidMoves s).1.check_mate = true ↔
          (getValidMoves s).2 = [] ∧ (inCheck s).2 = true) ∧
        ((getValidMoves s).1.stale_mate = true ↔
          (getValidMoves s).2 = [] ∧ (inCheck s).2 = false) ∧
        ((getValidMoves s).2 ≠ [] →
          (getValidMoves s).1.check_mate = false ∧
            (getValidMoves s).1.stale_mate = false) ∧
        ¬ ((getValidMoves s).1.check_mate = true ∧
            (getValidMoves s).1.stale_mate = true) := by
  refine ⟨⟨rfl, rfl⟩, fun s m => ⟨rfl, rfl, ?_, ?_⟩, ?_⟩
  · show (undoMove s).check_mate = s.check_mate
    unfold undoMove
    split <;> rfl
  · show (undoMove s).stale_mate = s.stale_mate
    unfold undoMove
    split <;> rfl
  · intro s hcm hsm hwf hk
    have hres : ∀ m ∈ getAllPossibleMoves s, RestoreOK s m := fun m hm =>
      restoreOK_of_wf s m hk (getAllPossibleMoves_wf s hwf m hm)
    have hfst := getValidMoves_fst s hres
    by_cases hLen : (getValidMoves s).2.length = 0
    · have hnil : (getValidMoves s).2 = [] := List.length_eq_zero.mp hLen
      rw [if_pos hLen] at hfst
      by_cases hchk : (inCheck s).2 = true
      · rw [if_pos hchk] at hfst
        rw [hfst]
        simp [hnil, hchk, hsm]
      · rw [if_neg hchk] at hfst
        rw [hfst]
        simp only [Bool.not_eq_true] at hchk
        simp [hnil, hchk, hcm]
    · have hne : (getValidMoves s).2 ≠ [] := by
        intro h
        exact hLen (by rw [h]; rfl)
      rw [if_neg hLen] at hfst
      rw [hfst]
      simp [hne]

/-! ### The reachability invariant -/

lemma wf8_make (s : GameState) (m : Move) (hwf : WF8 s.board) :
    WF8 (makeMove s m).board := by
  simp only [makeMove]
  split
  · exact wf8_bset _ _ _ _ (wf8_bset _ _ _ _ (wf8_bset _ _ _ _ hwf))
  · exact wf8_bset _ _ _ _ (wf8_bset _ _ _ _ hwf)

lemma makeMove_bget (s : GameState) (m : Move) (hwf : WF8 s.board)
    {r c : Int} (hin : InR r c) :
    bget (makeMove s m).board r c =
      if m.end_row = r ∧ m.end_col = c then
        (if m.isPawnPromotion then (m.piece_moved.1, 'Q') else m.piece_moved)
      else if m.start_row = r ∧ m.start_col = c then dash
      else bget s.board r c := by
  simp only [makeMove]
  by_cases hp : m.isPawnPromotion
  · rw [if_pos hp, if_pos hp, bset_bset_same,
      bget_bset _ _ _ _ _ _ (wf8_bset _ _ _ _ hwf) hin,
      bget_bset _ _ _ _ _ _ hwf hin]
  · rw [if_neg hp, if_neg hp,
      bget_bset _ _ _ _ _ _ (wf8_bset _ _ _ _ hwf) hin,
      bget_bset _ _ _ _ _ _ hwf hin]

/-- The side that just moved is not in check: no pseudo-legal move of the
side to move ends on the opposing king's cache square. -/
def noKingCapture (s : GameState) : Bool :=
  (getAllPossibleMoves s).all fun m =>
    !(m.end_row == (if s.white_to_move then s.black_king_location
        else s.white_king_location).1 &&
      m.end_col == (if s.white_to_move then s.black_king_location
        else s.white_king_location).2)

lemma noKingCapture_spec {s : GameState} (h : noKingCapture s = true) :
    ∀ m ∈ getAllPossibleMoves s,
      ¬ (m.end_row = (if s.white_to_move then s.black_king_location
            else s.white_king_location).1 ∧
         m.end_col = (if s.white_to_move then s.black_king_location
            else s.white_king_location).2) := by
  intro m hm
  have h2 := List.all_eq_true.mp h m hm
  simp at h2
  tauto

lemma gapm_congr (u v : GameState) (hb : u.board = v.board)
    (hw : u.white_to_move = v.white_to_move) :
    getAllPossibleMoves u = getAllPossibleMoves v := by
  unfold getAllPossibleMoves
  rw [hb, hw]

lemma inCheck_spec (u : GameState) :
    (inCheck u).2 =
      (getAllPossibleMoves (flipTurn u)).any fun m' =>
        m'.end_row == (if u.white_to_move then u.white_king_location
          else u.black_king_location).1 &&
        m'.end_col == (if u.white_to_move then u.white_king_location
          else u.black_king_location).2 := by
  unfold inCheck squareUnderAttack
  cases hu : u.white_to_move <;> simp [hu]

lemma safe_iff_noCapture (s : GameState) (m : Move) :
    SafeMove s m ↔ noKingCapture (makeMove s m) = true := by
  unfold SafeMove noKingCapture
  rw [inCheck_spec]
  have hg : getAllPossibleMoves (flipTurn (flipTurn (makeMove s m))) =
      getAllPossibleMoves (makeMove s m) :=
    gapm_congr _ _ rfl (by simp [flipTurn])
  rw [hg]
  have hloc : (if (flipTurn (makeMove s m)).white_to_move then
        (flipTurn (makeMove s m)).white_king_location
      else (flipTurn (makeMove s m)).black_king_location) =
      (if (makeMove s m).white_to_move then (makeMove s m).black_king_location
      else (makeMove s m).white_king_location) := by
    cases ht : (makeMove s m).white_to_move <;> simp [flipTurn, ht]
  rw [hloc]
  simp only [List.any_eq_false, List.all_eq_true, Bool.not_eq_true']
  constructor <;> intro h a ha
  · exact Bool.not_eq_true _ ▸ h a ha
  · exact Bool.not_eq_true _ ▸ h a ha

lemma uniqueKing_make_moved (s : GameState) (m : Move) (hwf : WF8 s.board)
    (K : Sq) (hK2 : K.2 = 'K') (loc : Int × Int)
    (hU : uniqueKing s.board K loc = true)
    (hpmK : m.piece_moved = K)
    (hpm : m.piece_moved = bget s.board m.start_row m.start_col)
    (hend : InR m.end_row m.end_col) :
    uniqueKing (makeMove s m).board K (m.end_row, m.end_col) = true := by
  have hpromo : ¬ m.isPawnPromotion = true := by
    unfold Move.isPawnPromotion
    rw [hpmK]
    intro hcon
    rw [Bool.or_eq_true, Bool.and_eq_true, Bool.and_eq_true] at hcon
    rcases hcon with ⟨h1, -⟩ | ⟨h1, -⟩
    · rw [beq_iff_eq] at h1
      rw [h1] at hK2
      exact absurd hK2 (by decide)
    · rw [beq_iff_eq] at h1
      rw [h1] at hK2
      exact absurd hK2 (by decide)
  apply uniqueKing_intro
  · show bget (makeMove s m).board m.end_row m.end_col = K
    rw [makeMove_bget s m hwf hend, if_pos ⟨rfl, rfl⟩, if_neg hpromo]
    exact hpmK
  · intro r c hin hg
    rw [makeMove_bget s m hwf hin] at hg
    by_cases h1 : m.end_row = r ∧ m.end_col = c
    · rw [Prod.ext_iff]
      exact ⟨h1.1.symm, h1.2.symm⟩
    · rw [if_neg h1] at hg
      by_cases h2 : m.start_row = r ∧ m.start_col = c
      · rw [if_pos h2] at hg
        rw [← hg] at hK2
        exact absurd hK2 (by decide)
      · rw [if_neg h2] at hg
        have hrc := uniqueKing_unique hU hin hg
        have hst : bget s.board m.start_row m.start_col = K := by
          rw [← hpm]; exact hpmK
        have hsin : InR m.start_row m.start_col := by
          by_contra hcon
          rw [bget_out _ hcon] at hst
          rw [← hst] at hK2
          exact absurd hK2 (by decide)
        have hsl := uniqueKing_unique hU hsin hst
        rw [← hsl, Prod.ext_iff] at hrc
        exact absurd ⟨hrc.1.symm, hrc.2.symm⟩ h2

lemma uniqueKing_make_other (s : GameState) (m : Move) (hwf : WF8 s.board)
    (K : Sq) (hK2 : K.2 = 'K') (loc : Int × Int)
    (hU : uniqueKing s.board K loc = true)
    (hpm : m.piece_moved = bget s.board m.start_row m.start_col)
    (hpmne : m.piece_moved ≠ K)
    (hendne : ¬ (m.end_row = loc.1 ∧ m.end_col = loc.2)) :
    uniqueKing (makeMove s m).board K loc = true := by
  have hYne : (if m.isPawnPromotion then (m.piece_moved.1, 'Q') else m.piece_moved) ≠ K := by
    split
    · intro hcon
      have hQK : ('Q' : Char) = 'K' := by rw [← hK2, ← hcon]
      exact absurd hQK (by decide)
    · exact hpmne
  have hat := uniqueKing_at hU
  have hlin : InR loc.1 loc.2 := by
    by_contra hcon
    rw [bget_out _ hcon] at hat
    rw [← hat] at hK2
    exact absurd hK2 (by decide)
  have hstne : ¬ (m.start_row = loc.1 ∧ m.start_col = loc.2) := by
    rintro ⟨ha, hb⟩
    apply hpmne
    rw [hpm, ha, hb]
    exact hat
  apply uniqueKing_intro
  · show bget (makeMove s m).board loc.1 loc.2 = K
    rw [makeMove_bget s m hwf hlin, if_neg hendne, if_neg hstne]
    exact hat
  · intro r c hin hg
    rw [makeMove_bget s m hwf hin] at hg
    by_cases h1 : m.end_row = r ∧ m.end_col = c
    · rw [if_pos h1] at hg
      exact absurd hg hYne
    · rw [if_neg h1] at hg
      by_cases h2 : m.start_row = r ∧ m.start_col = c
      · rw [if_pos h2] at hg
        rw [← hg] at hK2
        exact absurd hK2 (by decide)
      · rw [if_neg h2] at hg
        exact uniqueKing_unique hU hin hg

lemma kingsOK_make (s : GameState) (hwf : WF8 s.board) (hk : kingsOK s = true)
    (hnc : noKingCapture s = true) (m : Move)
    (hm : m ∈ getAllPossibleMoves s) :
    kingsOK (makeMove s m) = true := by
  have hMwf := getAllPossibleMoves_wf s hwf m hm
  rw [kingsOK, Bool.and_eq_true] at hk
  have hend := noKingCapture_spec hnc m hm
  rw [kingsOK, Bool.and_eq_true]
  cases hsw : s.white_to_move
  · -- black to move
    have hcol : m.piece_moved.1 = 'b' := by
      have h := hMwf.hcol
      rw [hsw] at h
      exact h
    have hpmnw : m.piece_moved ≠ wK := by
      intro hcon
      rw [hcon] at hcol
      exact absurd hcol (by decide)
    have hendw : ¬ (m.end_row = s.white_king_location.1 ∧
        m.end_col = s.white_king_location.2) := by
      rw [hsw] at hend
      simpa using hend
    constructor
    · have hwl : (makeMove s m).white_king_location = s.white_king_location := by
        simp only [makeMove]
        rw [if_neg hpmnw]
      rw [hwl]
      exact uniqueKing_make_other s m hwf wK (by decide) _ hk.1 hMwf.hpm hpmnw hendw
    · by_cases hpmb : m.piece_moved = bK
      · have hbl : (makeMove s m).black_king_location = (m.end_row, m.end_col) := by
          simp only [makeMove]
          rw [if_pos hpmb]
        rw [hbl]
        have hend_in : InR m.end_row m.end_col := hMwf.hendK (by rw [hpmb]; decide)
        exact uniqueKing_make_moved s m hwf bK (by decide) _ hk.2 hpmb hMwf.hpm hend_in
      · have hbl : (makeMove s m).black_king_location = s.black_king_location := by
          simp only [makeMove]
          rw [if_neg hpmb]
        rw [hbl]
        have hbne : ¬ (m.end_row = s.black_king_location.1 ∧
            m.end_col = s.black_king_location.2) := by
          rintro ⟨ha, hb⟩
          have hat := uniqueKing_at hk.2
          have hd := hMwf.hdest
          rw [ha, hb, hat, hsw] at hd
          exact hd (by decide)
        exact uniqueKing_make_other s m hwf bK (by decide) _ hk.2 hMwf.hpm hpmb hbne
  · -- white to move
    have hcol : m.piece_moved.1 = 'w' := by
      have h := hMwf.hcol
      rw [hsw] at h
      exact h
    have hpmnb : m.piece_moved ≠ bK := by
      intro hcon
      rw [hcon] at hcol
      exact absurd hcol (by decide)
    have hendb : ¬ (m.end_row = s.black_king_location.1 ∧
        m.end_col = s.black_king_location.2) := by
      rw [hsw] at hend
      simpa using hend
    constructor
    · by_cases hpmw : m.piece_moved = wK
      · have hwl : (makeMove s m).white_king_location = (m.end_row, m.end_col) := by
          simp only [makeMove]
          rw [if_pos hpmw]
        rw [hwl]
        have hend_in : InR m.end_row m.end_col := hMwf.hendK (by rw [hpmw]; decide)
        exact uniqueKing_make_moved s m hwf wK (by decide) _ hk.1 hpmw hMwf.hpm hend_in
      · have hwl : (makeMove s m).white_king_location = s.white_king_location := by
          simp only [makeMove]
          rw [if_neg hpmw]
        rw [hwl]
        have hwne : ¬ (m.end_row = s.white_king_location.1 ∧
            m.end_col = s.white_king_location.2) := by
          rintro ⟨ha, hb⟩
          have hat := uniqueKing_at hk.1
          have hd := hMwf.hdest
          rw [ha, hb, hat, hsw] at hd
          exact hd (by decide)
        exact uniqueKing_make_other s m hwf wK (by decide) _ hk.1 hMwf.hpm hpmw hwne
    · have hbl : (makeMove s m).black_king_location = s.black_king_location := by
        simp only [makeMove]
        rw [if_neg hpmnb]
      rw [hbl]
      exact uniqueKing_make_other s m hwf bK (by decide) _ hk.2 hMwf.hpm hpmnb hendb

/-- The reachability invariant: a well-formed board, king caches matching
the board's unique kings, and the side that just moved not in check. -/
def StateInv (s : GameState) : Prop :=
  WF8 s.board ∧ kingsOK s = true ∧ noKingCapture s = true

lemma inv_congr (u v : GameState) (hb : u.board = v.board)
    (hw : u.white_to_move = v.white_to_move)
    (hwl : u.white_king_location = v.white_king_location)
    (hbl : u.black_king_location = v.black_king_location)
    (h : StateInv u) : StateInv v := by
  obtain ⟨h1, h2, h3⟩ := h
  refine ⟨hb ▸ h1, ?_, ?_⟩
  · rw [kingsOK] at h2 ⊢
    rw [← hb, ← hwl, ← hbl]
    exact h2
  · rw [noKingCapture] at h3 ⊢
    rw [← gapm_congr u v hb hw, ← hw, ← hwl, ← hbl]
    exact h3

lemma makeMove_congr (u v : GameState) (m : Move) (hb : u.board = v.board)
    (hw : u.white_to_move = v.white_to_move)
    (hwl : u.white_king_location = v.white_king_location)
    (hbl : u.black_king_location = v.black_king_location) :
    (makeMove u m).board = (makeMove v m).board ∧
    (makeMove u m).white_to_move = (makeMove v m).white_to_move ∧
    (makeMove u m).white_king_location = (makeMove v m).white_king_location ∧
    (makeMove u m).black_king_location = (makeMove v m).black_king_location := by
  simp only [makeMove]
  rw [hb, hw, hwl, hbl]
  exact ⟨rfl, rfl, rfl, rfl⟩

set_option maxRecDepth 100000 in
lemma reachable_inv : ∀ s : GameState, Reachable s → StateInv s := by
  intro s h
  induction h with
  | init => exact ⟨by decide, by decide, by decide⟩
  | @step s m hr hm ih =>
    obtain ⟨hwf, hk, hnc⟩ := ih
    have hres : ∀ m' ∈ getAllPossibleMoves s, RestoreOK s m' := fun m' hm' =>
      restoreOK_of_wf s m' hk (getAllPossibleMoves_wf s hwf m' hm')
    have hcore := getValidMoves_core s hres
    have hmem : m ∈ getAllPossibleMoves s := (getValidMoves_sub s hres).mem hm
    have hsafe : SafeMove s m := getValidMoves_safe s hres m hm
    have hInvM : StateInv (makeMove s m) :=
      ⟨wf8_make s m hwf, kingsOK_make s hwf hk hnc m hmem,
        (safe_iff_noCapture s m).mp hsafe⟩
    obtain ⟨hb, hw, hwl, hbl⟩ := makeMove_congr s (getValidMoves s).1 m
      hcore.1.symm hcore.2.1.symm hcore.2.2.2.1.symm hcore.2.2.2.2.symm
    exact inv_congr (makeMove s m) (makeMove (getValidMoves s).1 m) hb hw hwl hbl hInvM

/-! ### Claim C1: the legality filter's core guarantee -/

/-- Claim C1: for every state reachable by legal play and every move `m`
in the list returned by `get_valid_moves`, applying `m` with `make_move`
and then evaluating `in_check` from the perspective of the side that just
moved (i.e. after flipping the side-to-move flag back to the mover)
returns false. -/
theorem C1_legal_moves_leave_no_check (s : GameState) (hs : Reachable s) :
    ∀ m ∈ (getValidMoves s).2,
      (inCheck (flipTurn (makeMove s m))).2 = false := by
  obtain ⟨hwf, hk, -⟩ := reachable_inv s hs
  have hres : ∀ m' ∈ getAllPossibleMoves s, RestoreOK s m' := fun m' hm' =>
    restoreOK_of_wf s m' hk (getAllPossibleMoves_wf s hwf m' hm')
  exact getValidMoves_safe s hres

set_option maxRecDepth 100000 in
/-- Witness for C1: the initial state is reachable, the king-pawn double
advance is in its legal list, and applying it leaves white not in check. -/
theorem C1_legal_moves_leave_no_check_witness :
    (inCheck (flipTurn (makeMove initGameState
        (mkMove (6, 4) (4, 4) initGameState.board)))).2 = false :=
  C1_legal_moves_leave_no_check initGameState Reachable.init
    (mkMove (6, 4) (4, 4) initGameState.board) (by decide)

set_option maxRecDepth 100000 in
/-- Witness for C4 at the initial state: the flags are not simultaneously
true after `get_valid_moves`. -/
theorem C4_terminal_flags_witness :
    ¬ ((getValidMoves initGameState).1.check_mate = true ∧
        (getValidMoves initGameState).1.stale_mate = true) :=
  (C4_terminal_flags.2.2 initGameState rfl rfl (by decide) (by decide)).2.2.2.2
